import Mathlib

/-
Verification development for the simple-redis RESP codec and command layer.

Modelling conventions:
- Rust byte buffers (BytesMut, Vec<u8>) are modelled as `List Nat`, each entry a
  byte value.
- Rust `String` is modelled as the list of its UTF-8 bytes; `String::from_utf8`
  becomes a validity check that returns the same bytes.
- Rust `i64` is modelled as `Int` (no claim under consideration exercises
  64-bit overflow).
- Rust `f64` is modelled by `F64`: either NaN or a non-NaN value identified by
  its canonical display text (the stable textual representation the encoder
  emits, per the spec).  IEEE equality semantics (NaN incomparable) are
  captured by `f64Eq`.
- The newtype wrappers SimpleString, SimpleError, BulkString, RespArray,
  RespMap, RespSet around their payloads are flattened into the RespFrame
  constructors, except where a claim is about the wrapper itself
  (`SimpleString` below keeps its own structure for the constructor claims).
- `decode(&mut BytesMut)` is modelled as a function from the buffer to the
  pair (result, buffer contents after the call).
-/

namespace SimpleRedis

/-- Carriage-return line-feed terminator bytes used throughout the wire format. -/
def crlf : List Nat := [13, 10]

/-- Check that a byte sequence contains neither CR (13) nor LF (10). -/
def noCRLF (s : List Nat) : Bool := s.all (fun b => b ≠ 13 && b ≠ 10)

/-- Continuation byte check for UTF-8 (bytes of shape 10xxxxxx). -/
def utf8Cont (b : Nat) : Bool := 128 ≤ b && b ≤ 191

/-- Modelled from the Rust standard library: the validity check performed by
String::from_utf8 / str::from_utf8 on a byte sequence (RFC 3629 UTF-8:
rejects overlong forms, surrogates and code points above U+10FFFF). -/
def utf8Valid : List Nat → Bool
  | [] => true
  | b :: r =>
    if b < 128 then utf8Valid r
    else if 194 ≤ b && b ≤ 223 then
      match r with
      | b2 :: r2 => utf8Cont b2 && utf8Valid r2
      | [] => false
    else if b = 224 then
      match r with
      | b2 :: b3 :: r3 => (160 ≤ b2 && b2 ≤ 191) && utf8Cont b3 && utf8Valid r3
      | _ => false
    else if 225 ≤ b && b ≤ 236 then
      match r with
      | b2 :: b3 :: r3 => utf8Cont b2 && utf8Cont b3 && utf8Valid r3
      | _ => false
    else if b = 237 then
      match r with
      | b2 :: b3 :: r3 => (128 ≤ b2 && b2 ≤ 159) && utf8Cont b3 && utf8Valid r3
      | _ => false
    else if 238 ≤ b && b ≤ 239 then
      match r with
      | b2 :: b3 :: r3 => utf8Cont b2 && utf8Cont b3 && utf8Valid r3
      | _ => false
    else if b = 240 then
      match r with
      | b2 :: b3 :: b4 :: r4 => (144 ≤ b2 && b2 ≤ 191) && utf8Cont b3 && utf8Cont b4 && utf8Valid r4
      | _ => false
    else if 241 ≤ b && b ≤ 243 then
      match r with
      | b2 :: b3 :: b4 :: r4 => utf8Cont b2 && utf8Cont b3 && utf8Cont b4 && utf8Valid r4
      | _ => false
    else if b = 244 then
      match r with
      | b2 :: b3 :: b4 :: r4 => (128 ≤ b2 && b2 ≤ 143) && utf8Cont b3 && utf8Cont b4 && utf8Valid r4
      | _ => false
    else false

/-- Accumulate the decimal digits of `n` (least significant last) in front of
`acc`; the first argument is recursion fuel, sufficient whenever it exceeds `n`. -/
def natToDigitsAux : Nat → Nat → List Nat → List Nat
  | 0, _, acc => acc
  | fuel + 1, n, acc =>
    if n < 10 then (48 + n) :: acc
    else natToDigitsAux fuel (n / 10) ((48 + n % 10) :: acc)

/-- Decimal ASCII digits of a natural number, as emitted by Rust's Display for
unsigned integers. -/
def natToDigits (n : Nat) : List Nat := natToDigitsAux (n + 1) n []

/-- Decimal ASCII bytes of a signed integer, as emitted by Rust's Display for
i64 (a leading minus sign for negative values, no sign otherwise). -/
def intToBytes (n : Int) : List Nat :=
  if n < 0 then 45 :: natToDigits (-n).toNat else natToDigits n.toNat

/-- Parse a run of decimal digit bytes left to right into the accumulator. -/
def parseDigitsAux (a : Nat) : List Nat → Option Nat
  | [] => some a
  | b :: r => if 48 ≤ b ∧ b ≤ 57 then parseDigitsAux (a * 10 + (b - 48)) r else none

/-- Parse a nonempty run of decimal digit bytes as a natural number. -/
def parseDigits (l : List Nat) : Option Nat :=
  match l with
  | [] => none
  | _ => parseDigitsAux 0 l

/-- Modelled from the Rust standard library: `<i64 as FromStr>::from_str` on the
bytes of a wire length or integer line (optional sign followed by digits). -/
def parseIntBytes (l : List Nat) : Option Int :=
  match l with
  | [] => none
  | b :: r =>
    if b = 45 then (parseDigits r).map (fun m => -(m : Int))
    else if b = 43 then (parseDigits r).map (fun m => (m : Int))
    else (parseDigits (b :: r)).map (fun m => (m : Int))

/-- Model of a Rust f64 value carried by a Double frame: either NaN or a
non-NaN value identified by the canonical text its Display produces. -/
inductive F64 where
  | NaN : F64
  | Num (text : List Nat) : F64
deriving DecidableEq

/-- Byte allowed in the display text of a non-NaN f64 (digits, signs, decimal
point, exponent marker, and the letters of "inf"). -/
def floatTextByteOk (b : Nat) : Bool :=
  (48 ≤ b && b ≤ 57) || b = 43 || b = 45 || b = 46 || b = 101 || b = 69 || b = 105 || b = 110 || b = 102

/-- Well-formed display text of a non-NaN f64: nonempty and made only of float
literal bytes (this excludes CR, LF and the bytes of "NaN"). -/
def floatTextOk (s : List Nat) : Bool := !s.isEmpty && s.all floatTextByteOk

/-- Wire text of a Double payload: Rust Display prints NaN as "NaN". -/
def f64Bytes : F64 → List Nat
  | .NaN => [78, 97, 78]
  | .Num s => s

/-- Modelled from the Rust standard library: `<f64 as FromStr>::from_str` on a
Double line, with the canonical text of a non-NaN value standing for the
value itself. -/
def parseF64 (line : List Nat) : Option F64 :=
  if line = [78, 97, 78] then some F64.NaN
  else if floatTextOk line then some (F64.Num line) else none

/-- The RespError enum of src/resp/mod.rs.  The std error payloads of the
wrapped ParseIntError / Utf8Error / ParseFloatError variants are dropped. -/
inductive RespError where
  | InvalidFrame (msg : String)
  | InvalidFrameType (msg : String)
  | InvalidFrameLength (n : Int)
  | NotComplete
  | ParseIntError
  | Utf8Error
  | ParseFloatError
deriving DecidableEq

/-- The RespFrame enum of src/resp/mod.rs with the payload newtypes flattened:
SimpleString/SimpleError hold their String bytes, BulkString its Vec of
bytes, RespArray/RespSet their element vectors, and RespMap its
BTreeMap<String, RespFrame> as a key-sorted association list. -/
inductive RespFrame where
  | SimpleString (s : List Nat)
  | Error (s : List Nat)
  | Integer (n : Int)
  | BulkString (b : List Nat)
  | NullBulkString
  | Array (xs : List RespFrame)
  | NullArray
  | Null
  | Boolean (b : Bool)
  | Double (d : F64)
  | Map (kvs : List (List Nat × RespFrame))
  | Set (xs : List RespFrame)

/-- Strict lexicographic byte order on key bytes: the Ord used by Rust's
BTreeMap<String, _> (String compares as its UTF-8 bytes). -/
def bytesLt : List Nat → List Nat → Bool
  | [], [] => false
  | [], _ :: _ => true
  | _ :: _, [] => false
  | a :: as', b :: bs' => if a < b then true else if a = b then bytesLt as' bs' else false

/-- Keys of an association list are strictly increasing, the shape every
in-memory BTreeMap has. -/
def sortedKeys : List (List Nat × RespFrame) → Bool
  | [] => true
  | [_] => true
  | (k1, _) :: (k2, v2) :: rest => bytesLt k1 k2 && sortedKeys ((k2, v2) :: rest)

/-- Modelled from the Rust standard library: BTreeMap::insert on the sorted
association list representation (replaces the value on an equal key). -/
def mapInsert (k : List Nat) (v : RespFrame) : List (List Nat × RespFrame) → List (List Nat × RespFrame)
  | [] => [(k, v)]
  | (k1, v1) :: rest =>
    if bytesLt k k1 then (k, v) :: (k1, v1) :: rest
    else if k = k1 then (k, v) :: rest
    else (k1, v1) :: mapInsert k v rest

mutual
/-- Modelled from the spec: the RespEncode implementations of the missing
src/resp/encode.rs, following the wire table of spec section 6 (marker byte,
type-specific body, CRLF terminators; Map entries emitted in key order with
SimpleString-encoded keys; Integer and Double in their Display text). -/
def encode : RespFrame → List Nat
  | .SimpleString s => 43 :: (s ++ crlf)
  | .Error s => 45 :: (s ++ crlf)
  | .Integer n => 58 :: (intToBytes n ++ crlf)
  | .BulkString b => 36 :: (natToDigits b.length ++ crlf ++ b ++ crlf)
  | .NullBulkString => [36, 45, 49, 13, 10]
  | .Array xs => 42 :: (natToDigits xs.length ++ crlf ++ encodeList xs)
  | .NullArray => [42, 45, 49, 13, 10]
  | .Null => [95, 13, 10]
  | .Boolean true => [35, 116, 13, 10]
  | .Boolean false => [35, 102, 13, 10]
  | .Double d => 44 :: (f64Bytes d ++ crlf)
  | .Map kvs => 37 :: (natToDigits kvs.length ++ crlf ++ encodePairs kvs)
  | .Set xs => 126 :: (natToDigits xs.length ++ crlf ++ encodeList xs)

/-- Concatenated encodings of a frame sequence (Array and Set bodies). -/
def encodeList : List RespFrame → List Nat
  | [] => []
  | f :: fs => encode f ++ encodeList fs

/-- Concatenated encodings of Map entries: each key as a SimpleString frame,
then the value frame. -/
def encodePairs : List (List Nat × RespFrame) → List Nat
  | [] => []
  | (k, v) :: kvs => (43 :: (k ++ crlf)) ++ encode v ++ encodePairs kvs
end

/-- Scan a buffer for the first CRLF pair; on success return the bytes before
it and the bytes after it, otherwise none (line not yet complete). -/
def splitLine : List Nat → Option (List Nat × List Nat)
  | [] => none
  | [_] => none
  | a :: b :: rest =>
    if a = 13 ∧ b = 10 then some ([], rest)
    else
      match splitLine (b :: rest) with
      | none => none
      | some (l, r) => some (a :: l, r)

/-- Run a frame parser `count` times in sequence over the buffer, collecting
the decoded elements (Array and Set bodies). -/
def parseMany (p : List Nat → Except RespError (RespFrame × List Nat)) :
    Nat → List Nat → Except RespError (List RespFrame × List Nat)
  | 0, buf => .ok ([], buf)
  | n + 1, buf =>
    match p buf with
    | .error e => .error e
    | .ok (f, rest) =>
      match parseMany p n rest with
      | .error e => .error e
      | .ok (fs, rest2) => .ok (f :: fs, rest2)

/-- Run a frame parser over `count` key-value pairs of a Map body, requiring
each key to decode as a SimpleString and inserting each pair into the
accumulated BTreeMap. -/
def parsePairsM (p : List Nat → Except RespError (RespFrame × List Nat)) :
    Nat → List Nat → List (List Nat × RespFrame) → Except RespError (List (List Nat × RespFrame) × List Nat)
  | 0, buf, acc => .ok (acc, buf)
  | n + 1, buf, acc =>
    match p buf with
    | .error e => .error e
    | .ok (RespFrame.SimpleString k, rest) =>
      match p rest with
      | .error e => .error e
      | .ok (v, rest2) => parsePairsM p n rest2 (mapInsert k v acc)
    | .ok _ => .error (RespError.InvalidFrame "map key must decode as a simple string")

/-- Dispatch on the marker byte of a frame whose recursive sub-frames are
decoded by `p`; the body of the spec-modelled decoder (spec section 4.2). -/
def parseMarker (p : List Nat → Except RespError (RespFrame × List Nat))
    (b : Nat) (rest : List Nat) : Except RespError (RespFrame × List Nat) :=
    if b = 43 then
      match splitLine rest with
      | none => .error RespError.NotComplete
      | some (line, after) =>
        if utf8Valid line then .ok (RespFrame.SimpleString line, after)
        else .error RespError.Utf8Error
    else if b = 45 then
      match splitLine rest with
      | none => .error RespError.NotComplete
      | some (line, after) =>
        if utf8Valid line then .ok (RespFrame.Error line, after)
        else .error RespError.Utf8Error
    else if b = 58 then
      match splitLine rest with
      | none => .error RespError.NotComplete
      | some (line, after) =>
        match parseIntBytes line with
        | none => .error RespError.ParseIntError
        | some n => .ok (RespFrame.Integer n, after)
    else if b = 36 then
      match splitLine rest with
      | none => .error RespError.NotComplete
      | some (line, after) =>
        match parseIntBytes line with
        | none => .error RespError.ParseIntError
        | some n =>
          if n = -1 then .ok (RespFrame.NullBulkString, after)
          else if n < 0 then .error (RespError.InvalidFrameLength n)
          else if after.length < n.toNat + 2 then .error RespError.NotComplete
          else
            match after.drop n.toNat with
            | 13 :: 10 :: tail => .ok (RespFrame.BulkString (after.take n.toNat), tail)
            | _ => .error (RespError.InvalidFrame "bulk string missing terminator")
    else if b = 42 then
      match splitLine rest with
      | none => .error RespError.NotComplete
      | some (line, after) =>
        match parseIntBytes line with
        | none => .error RespError.ParseIntError
        | some n =>
          if n = -1 then .ok (RespFrame.NullArray, after)
          else if n < 0 then .error (RespError.InvalidFrameLength n)
          else
            match parseMany p n.toNat after with
            | .error e => .error e
            | .ok (fs, rest2) => .ok (RespFrame.Array fs, rest2)
    else if b = 95 then
      match splitLine rest with
      | none => .error RespError.NotComplete
      | some (line, after) =>
        if line = [] then .ok (RespFrame.Null, after)
        else .error (RespError.InvalidFrame "null frame carries no payload")
    else if b = 35 then
      match splitLine rest with
      | none => .error RespError.NotComplete
      | some (line, after) =>
        if line = [116] then .ok (RespFrame.Boolean true, after)
        else if line = [102] then .ok (RespFrame.Boolean false, after)
        else .error (RespError.InvalidFrame "boolean must be t or f")
    else if b = 44 then
      match splitLine rest with
      | none => .error RespError.NotComplete
      | some (line, after) =>
        match parseF64 line with
        | none => .error RespError.ParseFloatError
        | some d => .ok (RespFrame.Double d, after)
    else if b = 37 then
      match splitLine rest with
      | none => .error RespError.NotComplete
      | some (line, after) =>
        match parseIntBytes line with
        | none => .error RespError.ParseIntError
        | some n =>
          if n < 0 then .error (RespError.InvalidFrameLength n)
          else
            match parsePairsM p n.toNat after [] with
            | .error e => .error e
            | .ok (kvs, rest2) => .ok (RespFrame.Map kvs, rest2)
    else if b = 126 then
      match splitLine rest with
      | none => .error RespError.NotComplete
      | some (line, after) =>
        match parseIntBytes line with
        | none => .error RespError.ParseIntError
        | some n =>
          if n < 0 then .error (RespError.InvalidFrameLength n)
          else
            match parseMany p n.toNat after with
            | .error e => .error e
            | .ok (fs, rest2) => .ok (RespFrame.Set fs, rest2)
    else .error (RespError.InvalidFrameType "unknown marker byte")

/-- Modelled from the spec: the RespDecode implementations of the missing
src/resp/decode.rs, as one recursive-descent parser dispatching on the
marker byte via parseMarker (spec section 4.2).  The parser consumes nothing
on failure: it returns the unconsumed suffix only on success, which is the
all-or-nothing transactional-cursor strategy the spec allows for the
NotComplete guarantee.  The fuel argument bounds nesting depth and is
always called with more fuel than the buffer has bytes, so it never runs
out on input that parses. -/
def parseFrame : Nat → List Nat → Except RespError (RespFrame × List Nat)
  | 0, _ => .error RespError.NotComplete
  | _ + 1, [] => .error RespError.NotComplete
  | fuel + 1, b :: rest => parseMarker (fun bb => parseFrame fuel bb) b rest

/-- Modelled from the spec: RespFrame::decode on a mutable buffer, returning
the decode result together with the buffer contents after the call.  On
success exactly the parsed frame's bytes are removed from the front; on any
failure, NotComplete included, the buffer is left untouched. -/
def decode (buf : List Nat) : Except RespError RespFrame × List Nat :=
  match parseFrame (buf.length + 1) buf with
  | .ok (f, rest) => (.ok f, rest)
  | .error e => (.error e, buf)

/-- Well-formedness of a Double payload. -/
def wfF64 : F64 → Bool
  | .NaN => true
  | .Num s => floatTextOk s

mutual
/-- A frame constructible through the repository's Rust interface whose wire
text round-trips: String payloads are valid UTF-8 (always true of Rust
String), SimpleString/SimpleError payloads and Map keys are additionally
CR/LF-free, Map entries are key-sorted (always true of BTreeMap), and
Double payloads carry well-formed display text (always true of f64). -/
def wfFrame : RespFrame → Bool
  | .SimpleString s => utf8Valid s && noCRLF s
  | .Error s => utf8Valid s && noCRLF s
  | .Integer _ => true
  | .BulkString _ => true
  | .NullBulkString => true
  | .Array xs => wfList xs
  | .NullArray => true
  | .Null => true
  | .Boolean _ => true
  | .Double d => wfF64 d
  | .Map kvs => sortedKeys kvs && wfPairs kvs
  | .Set xs => wfList xs

/-- Well-formedness of every frame in a sequence. -/
def wfList : List RespFrame → Bool
  | [] => true
  | f :: fs => wfFrame f && wfList fs

/-- Well-formedness of map entries: keys valid UTF-8 and CR/LF-free, values
well-formed. -/
def wfPairs : List (List Nat × RespFrame) → Bool
  | [] => true
  | (k, v) :: kvs => utf8Valid k && noCRLF k && wfFrame v && wfPairs kvs
end

mutual
/-- Every Map frame nested anywhere inside the frame keeps its entries
strictly sorted by key. -/
def mapsSorted : RespFrame → Bool
  | .Array xs => mapsSortedList xs
  | .Set xs => mapsSortedList xs
  | .Map kvs => sortedKeys kvs && mapsSortedPairs kvs
  | _ => true

/-- mapsSorted over every frame of a sequence. -/
def mapsSortedList : List RespFrame → Bool
  | [] => true
  | f :: fs => mapsSorted f && mapsSortedList fs

/-- mapsSorted over every value of a map body. -/
def mapsSortedPairs : List (List Nat × RespFrame) → Bool
  | [] => true
  | (_, v) :: kvs => mapsSorted v && mapsSortedPairs kvs
end

/-- Model of IEEE f64 equality as used by Rust's PartialEq: NaN compares
unequal to everything, NaN itself included. -/
def f64Eq : F64 → F64 → Bool
  | .NaN, _ => false
  | _, .NaN => false
  | .Num a, .Num b => a == b

mutual
/-- The PartialEq derived on RespFrame in src/resp/mod.rs: structural
comparison, with Double payloads compared by IEEE f64 equality. -/
def rustFrameEq : RespFrame → RespFrame → Bool
  | .SimpleString a, .SimpleString b => a == b
  | .Error a, .Error b => a == b
  | .Integer a, .Integer b => a == b
  | .BulkString a, .BulkString b => a == b
  | .NullBulkString, .NullBulkString => true
  | .Array a, .Array b => rustListEq a b
  | .NullArray, .NullArray => true
  | .Null, .Null => true
  | .Boolean a, .Boolean b => a == b
  | .Double a, .Double b => f64Eq a b
  | .Map a, .Map b => rustPairsEq a b
  | .Set a, .Set b => rustListEq a b
  | _, _ => false

/-- Rust PartialEq on frame vectors. -/
def rustListEq : List RespFrame → List RespFrame → Bool
  | [], [] => true
  | a :: as', b :: bs' => rustFrameEq a b && rustListEq as' bs'
  | _, _ => false

/-- Rust PartialEq on BTreeMap entry sequences. -/
def rustPairsEq : List (List Nat × RespFrame) → List (List Nat × RespFrame) → Bool
  | [], [] => true
  | (ka, va) :: as', (kb, vb) :: bs' => ka == kb && rustFrameEq va vb && rustPairsEq as' bs'
  | _, _ => false
end

/-- Rust PartialEq on the decode result, as used by the round-trip property
`decode(encode(f)) == Ok(f)`: Ok payloads compare by frame PartialEq,
errors by the derived RespError PartialEq. -/
def rustResultEq : Except RespError RespFrame → Except RespError RespFrame → Bool
  | .ok a, .ok b => rustFrameEq a b
  | .error a, .error b => a == b
  | _, _ => false

/-- The SimpleString newtype of src/resp/mod.rs (pub struct SimpleString(String)). -/
structure SimpleString where
  val : List Nat

/-- SimpleString::new of src/resp/mod.rs: wraps the given string unchanged,
with no validation of any wire constraint. -/
def SimpleString.new (s : List Nat) : SimpleString := ⟨s⟩

/-- The From&str conversion of src/resp/mod.rs: delegates to SimpleString::new. -/
def SimpleString.fromStr (s : List Nat) : SimpleString := SimpleString.new s

/-- Lifting of the SimpleString newtype into the RespFrame enum (the
enum_dispatch From impl). -/
def SimpleString.toFrame (ss : SimpleString) : RespFrame := RespFrame.SimpleString ss.val

/-- Modelled from the spec: the CommandError of the missing src/cmd/mod.rs; a
single invalid-argument class carrying a descriptive message, into which
arity, name-match and UTF-8 failures all funnel (spec sections 4.4, 7). -/
inductive CommandError where
  | invalidArgument (msg : String)
deriving DecidableEq

/-- Modelled from the Rust standard library: String::from_utf8 on key/field
bytes; returns the same bytes when they are valid UTF-8. -/
def stringFromUtf8 (bs : List Nat) : Option (List Nat) :=
  if utf8Valid bs then some bs else none

/-- Modelled from the spec: validate_command of the missing src/cmd/mod.rs,
name-checking step; each expected name must be matched by a BulkString
element holding exactly those bytes, case as received. -/
def validateNames : List RespFrame → List (List Nat) → Except CommandError Unit
  | _, [] => .ok ()
  | RespFrame.BulkString cmd :: rest, name :: names =>
    if cmd = name then validateNames rest names
    else .error (CommandError.invalidArgument "Invalid command name")
  | _, _ :: _ => .error (CommandError.invalidArgument "Command name must be a BulkString")

/-- Modelled from the spec: validate_command of the missing src/cmd/mod.rs;
checks the array holds exactly the command name(s) plus the expected number
of arguments, then checks the leading name elements (spec section 4.4). -/
def validateCommand (value : List RespFrame) (names : List (List Nat)) (nArgs : Nat) :
    Except CommandError Unit :=
  if value.length = names.length + nArgs then validateNames value names
  else .error (CommandError.invalidArgument "wrong number of arguments")

/-- Modelled from the spec: extract_args of the missing src/cmd/mod.rs; skips
the leading `start` elements and yields the remaining argument frames. -/
def extractArgs (value : List RespFrame) (start : Nat) : Except CommandError (List RespFrame) :=
  .ok (value.drop start)

/-- The Get command struct (declared in the missing src/cmd/mod.rs, shape fixed
by its use in src/cmd/map.rs). -/
structure Get where
  key : List Nat

/-- The Set command struct: key plus the value retained as an opaque frame. -/
structure Set where
  key : List Nat
  value : RespFrame

/-- The HGet command struct. -/
structure HGet where
  key : List Nat
  field : List Nat

/-- The HSet command struct: key, field, and the value retained as a frame. -/
structure HSet where
  key : List Nat
  field : List Nat
  value : RespFrame

/-- The HGetAll command struct. -/
structure HGetAll where
  key : List Nat

/-- TryFrom RespArray for Get, translated from src/cmd/map.rs. -/
def getTryFrom (value : List RespFrame) : Except CommandError Get :=
  match validateCommand value [[103, 101, 116]] 1 with
  | .error e => .error e
  | .ok _ =>
    match extractArgs value 1 with
    | .error e => .error e
    | .ok args =>
      match args with
      | RespFrame.BulkString key :: _ =>
        match stringFromUtf8 key with
        | some k => .ok ⟨k⟩
        | none => .error (CommandError.invalidArgument "invalid utf8")
      | _ => .error (CommandError.invalidArgument "Invalid key")

/-- TryFrom RespArray for Set, translated from src/cmd/map.rs: the second
argument is retained as an opaque frame. -/
def setTryFrom (value : List RespFrame) : Except CommandError Set :=
  match validateCommand value [[115, 101, 116]] 2 with
  | .error e => .error e
  | .ok _ =>
    match extractArgs value 1 with
    | .error e => .error e
    | .ok args =>
      match args with
      | RespFrame.BulkString key :: v :: _ =>
        match stringFromUtf8 key with
        | some k => .ok ⟨k, v⟩
        | none => .error (CommandError.invalidArgument "invalid utf8")
      | _ => .error (CommandError.invalidArgument "Invalid key or value")

/-- TryFrom RespArray for HGet, translated from src/cmd/hmap.rs. -/
def hgetTryFrom (value : List RespFrame) : Except CommandError HGet :=
  match validateCommand value [[104, 103, 101, 116]] 2 with
  | .error e => .error e
  | .ok _ =>
    match extractArgs value 1 with
    | .error e => .error e
    | .ok args =>
      match args with
      | RespFrame.BulkString key :: RespFrame.BulkString fld :: _ =>
        match stringFromUtf8 key, stringFromUtf8 fld with
        | some k, some f => .ok ⟨k, f⟩
        | _, _ => .error (CommandError.invalidArgument "invalid utf8")
      | _ => .error (CommandError.invalidArgument "Invalid key or field")

/-- TryFrom RespArray for HSet, translated from src/cmd/hmap.rs: the third
argument is retained as an opaque frame. -/
def hsetTryFrom (value : List RespFrame) : Except CommandError HSet :=
  match validateCommand value [[104, 115, 101, 116]] 3 with
  | .error e => .error e
  | .ok _ =>
    match extractArgs value 1 with
    | .error e => .error e
    | .ok args =>
      match args with
      | RespFrame.BulkString key :: RespFrame.BulkString fld :: v :: _ =>
        match stringFromUtf8 key, stringFromUtf8 fld with
        | some k, some f => .ok ⟨k, f, v⟩
        | _, _ => .error (CommandError.invalidArgument "invalid utf8")
      | _ => .error (CommandError.invalidArgument "Invalid key or field")

/-- TryFrom RespArray for HGetAll, translated from src/cmd/hmap.rs. -/
def hgetAllTryFrom (value : List RespFrame) : Except CommandError HGetAll :=
  match validateCommand value [[104, 103, 101, 116, 97, 108, 108]] 1 with
  | .error e => .error e
  | .ok _ =>
    match extractArgs value 1 with
    | .error e => .error e
    | .ok args =>
      match args with
      | RespFrame.BulkString key :: _ =>
        match stringFromUtf8 key with
        | some k => .ok ⟨k⟩
        | none => .error (CommandError.invalidArgument "invalid utf8")
      | _ => .error (CommandError.invalidArgument "Invalid key")

/-! Decimal digit codec lemmas. -/

theorem natToDigitsAux_irrel (f1 : Nat) : ∀ f2 n acc, n < f1 → n < f2 →
    natToDigitsAux f1 n acc = natToDigitsAux f2 n acc := by
  induction f1 with
  | zero => intro f2 n acc h1 _; omega
  | succ f1 ih =>
    intro f2 n acc h1 h2
    cases f2 with
    | zero => omega
    | succ f2 =>
      simp only [natToDigitsAux]
      by_cases hn : n < 10
      · simp [hn]
      · have hd : n / 10 < n := Nat.div_lt_self (by omega) (by omega)
        simp only [hn, if_false]
        exact ih f2 (n / 10) _ (by omega) (by omega)

theorem natToDigitsAux_acc (f : Nat) : ∀ n acc, n < f →
    natToDigitsAux f n acc = natToDigitsAux f n [] ++ acc := by
  induction f with
  | zero => intro n acc h; omega
  | succ f ih =>
    intro n acc h
    simp only [natToDigitsAux]
    by_cases hn : n < 10
    · simp [hn]
    · have hd : n / 10 < n := Nat.div_lt_self (by omega) (by omega)
      simp only [hn, if_false]
      rw [ih (n / 10) _ (by omega), ih (n / 10) ([48 + n % 10]) (by omega), List.append_assoc]
      simp

theorem natToDigits_eq (n : Nat) :
    natToDigits n = if n < 10 then [48 + n] else natToDigits (n / 10) ++ [48 + n % 10] := by
  by_cases hn : n < 10
  · simp only [hn, if_true]
    show natToDigitsAux (n + 1) n [] = [48 + n]
    simp [natToDigitsAux, hn]
  · have hd : n / 10 < n := Nat.div_lt_self (by omega) (by omega)
    simp only [hn, if_false]
    show natToDigitsAux (n + 1) n [] = natToDigitsAux (n / 10 + 1) (n / 10) [] ++ [48 + n % 10]
    simp only [natToDigitsAux, hn, if_false]
    rw [natToDigitsAux_acc n (n / 10) _ (by omega)]
    congr 1
    exact natToDigitsAux_irrel n (n / 10 + 1) (n / 10) [] (by omega) (by omega)

theorem natToDigits_range (n : Nat) : ∀ b ∈ natToDigits n, 48 ≤ b ∧ b ≤ 57 := by
  induction n using Nat.strong_induction_on with
  | _ n ih =>
    rw [natToDigits_eq]
    by_cases hn : n < 10
    · simp only [hn, if_true]
      intro b hb
      simp only [List.mem_singleton] at hb
      omega
    · simp only [hn, if_false]
      intro b hb
      rcases List.mem_append.1 hb with h | h
      · exact ih (n / 10) (Nat.div_lt_self (by omega) (by omega)) b h
      · simp only [List.mem_singleton] at h
        have : n % 10 < 10 := Nat.mod_lt _ (by omega)
        omega

theorem natToDigits_ne_nil (n : Nat) : natToDigits n ≠ [] := by
  rw [natToDigits_eq]
  split <;> simp

theorem natToDigits_length_pos (n : Nat) : 1 ≤ (natToDigits n).length := by
  cases h : natToDigits n with
  | nil => exact absurd h (natToDigits_ne_nil n)
  | cons b bs => simp

theorem natToDigits_not13 (n : Nat) : (13 : Nat) ∉ natToDigits n := by
  intro h
  have := natToDigits_range n 13 h
  omega

theorem intToBytes_not13 (n : Int) : (13 : Nat) ∉ intToBytes n := by
  unfold intToBytes
  split
  · intro h
    rcases List.mem_cons.1 h with h | h
    · omega
    · exact natToDigits_not13 _ h
  · exact natToDigits_not13 _

theorem parseDigitsAux_append (xs : List Nat) : ∀ (a : Nat) (ys : List Nat),
    parseDigitsAux a (xs ++ ys) =
      match parseDigitsAux a xs with
      | none => none
      | some r => parseDigitsAux r ys := by
  induction xs with
  | nil => intro a ys; simp [parseDigitsAux]
  | cons b bs ih =>
    intro a ys
    simp only [List.cons_append, parseDigitsAux]
    by_cases hb : 48 ≤ b ∧ b ≤ 57
    · simp only [hb, if_true]
      exact ih _ ys
    · simp [hb]

theorem parseDigitsAux_natToDigits (n : Nat) : ∀ a : Nat,
    parseDigitsAux a (natToDigits n) = some (a * 10 ^ (natToDigits n).length + n) := by
  induction n using Nat.strong_induction_on with
  | _ n ih =>
    intro a
    rw [natToDigits_eq]
    by_cases hn : n < 10
    · simp only [hn, if_true]
      have hb : 48 ≤ 48 + n ∧ 48 + n ≤ 57 := by omega
      simp only [parseDigitsAux]
      rw [if_pos hb]
      simp only [parseDigitsAux, List.length_cons, List.length_nil, pow_one]
      congr 1
      omega
    · have hd : n / 10 < n := Nat.div_lt_self (by omega) (by omega)
      simp only [hn, if_false]
      rw [parseDigitsAux_append]
      rw [ih (n / 10) hd a]
      have hb : 48 ≤ 48 + n % 10 ∧ 48 + n % 10 ≤ 57 := by
        have : n % 10 < 10 := Nat.mod_lt _ (by omega)
        omega
      simp only [parseDigitsAux]
      rw [if_pos hb]
      simp only [parseDigitsAux, List.length_append, List.length_cons, List.length_nil]
      congr 1
      have h10 : n / 10 * 10 + n % 10 = n := by omega
      have hsub : 48 + n % 10 - 48 = n % 10 := by omega
      rw [hsub, pow_succ]
      calc (a * 10 ^ (natToDigits (n / 10)).length + n / 10) * 10 + n % 10
      _ = a * (10 ^ (natToDigits (n / 10)).length * 10) + (n / 10 * 10 + n % 10) := by ring
      _ = a * (10 ^ (natToDigits (n / 10)).length * 10) + n := by rw [h10]

theorem parseDigits_natToDigits (n : Nat) : parseDigits (natToDigits n) = some n := by
  cases h : natToDigits n with
  | nil => exact absurd h (natToDigits_ne_nil n)
  | cons b bs =>
    have ht := parseDigitsAux_natToDigits n 0
    rw [h] at ht
    simpa [parseDigits] using ht

theorem parseIntBytes_natToDigits (n : Nat) : parseIntBytes (natToDigits n) = some (n : Int) := by
  cases h : natToDigits n with
  | nil => exact absurd h (natToDigits_ne_nil n)
  | cons b bs =>
    have hb : 48 ≤ b ∧ b ≤ 57 := natToDigits_range n b (h ▸ List.mem_cons_self _ _)
    have hp : parseDigits (b :: bs) = some n := h ▸ parseDigits_natToDigits n
    simp only [parseIntBytes]
    rw [if_neg (by omega), if_neg (by omega), hp]
    rfl

theorem parseIntBytes_intToBytes (n : Int) : parseIntBytes (intToBytes n) = some n := by
  unfold intToBytes
  by_cases hn : n < 0
  · simp only [hn, if_true]
    have hp : parseDigits (natToDigits (-n).toNat) = some (-n).toNat :=
      parseDigits_natToDigits _
    simp only [parseIntBytes, if_true]
    rw [hp]
    show some (-(((-n).toNat : Nat) : Int)) = some n
    simp only [Option.some.injEq]
    omega
  · simp only [hn, if_false]
    rw [parseIntBytes_natToDigits]
    simp only [Option.some.injEq]
    omega

/-! Line splitting lemmas. -/

theorem splitLine_append (s : List Nat) : ∀ r : List Nat, (13 : Nat) ∉ s →
    splitLine (s ++ 13 :: 10 :: r) = some (s, r) := by
  induction s with
  | nil => intro r _; simp [splitLine]
  | cons a s' ih =>
    intro r h
    have ha : a ≠ 13 := fun e => h (by simp [e])
    have h' : (13 : Nat) ∉ s' := fun hm => h (List.mem_cons_of_mem _ hm)
    obtain ⟨b, t, hbt⟩ : ∃ b t, s' ++ 13 :: 10 :: r = b :: t := by
      cases s' with
      | nil => exact ⟨13, 10 :: r, rfl⟩
      | cons c s'' => exact ⟨c, s'' ++ 13 :: 10 :: r, rfl⟩
    rw [List.cons_append, hbt]
    simp only [splitLine]
    rw [if_neg (by simp [ha])]
    rw [← hbt, ih r h']

theorem noCRLF_not13 {s : List Nat} (h : noCRLF s = true) : (13 : Nat) ∉ s := by
  intro hm
  simp only [noCRLF, List.all_eq_true] at h
  have := h 13 hm
  simp at this

theorem floatTextOk_not13 {s : List Nat} (h : floatTextOk s = true) : (13 : Nat) ∉ s := by
  intro hm
  simp only [floatTextOk, Bool.and_eq_true, List.all_eq_true] at h
  have := h.2 13 hm
  simp [floatTextByteOk] at this

theorem floatTextOk_ne_nan {s : List Nat} (h : floatTextOk s = true) : s ≠ [78, 97, 78] := by
  intro he
  subst he
  simp only [floatTextOk, Bool.and_eq_true, List.all_eq_true] at h
  have := h.2 78 (by simp)
  simp [floatTextByteOk] at this

/-! Byte order lemmas. -/

theorem bytesLt_irrefl (a : List Nat) : bytesLt a a = false := by
  induction a with
  | nil => rfl
  | cons x xs ih => simp [bytesLt, ih]

theorem bytesLt_trans (a : List Nat) : ∀ b c, bytesLt a b = true → bytesLt b c = true →
    bytesLt a c = true := by
  induction a with
  | nil =>
    intro b c hab hbc
    cases b with
    | nil => simp [bytesLt] at hab
    | cons y ys =>
      cases c with
      | nil => simp [bytesLt] at hbc
      | cons z zs => simp [bytesLt]
  | cons x xs ih =>
    intro b c hab hbc
    cases b with
    | nil => simp [bytesLt] at hab
    | cons y ys =>
      cases c with
      | nil => simp [bytesLt] at hbc
      | cons z zs =>
        by_cases h1 : x < y
        · by_cases h2 : y < z
          · simp [bytesLt, show x < z by omega]
          · by_cases h3 : y = z
            · subst h3
              simp [bytesLt, h1]
            · exfalso
              simp [bytesLt, h2, h3] at hbc
        · by_cases h3 : x = y
          · subst h3
            have hab' : bytesLt xs ys = true := by
              simpa [bytesLt, h1] using hab
            by_cases h2 : x < z
            · simp [bytesLt, h2]
            · by_cases h4 : x = z
              · subst h4
                have hbc' : bytesLt ys zs = true := by
                  simpa [bytesLt, h2] using hbc
                simp [bytesLt, h2, ih ys zs hab' hbc']
              · exfalso
                simp [bytesLt, h2, h4] at hbc
          · exfalso
            simp [bytesLt, h1, h3] at hab

theorem bytesLt_total (a : List Nat) : ∀ b, bytesLt a b = true ∨ a = b ∨ bytesLt b a = true := by
  induction a with
  | nil =>
    intro b
    cases b with
    | nil => right; left; rfl
    | cons y ys => left; simp [bytesLt]
  | cons x xs ih =>
    intro b
    cases b with
    | nil => right; right; simp [bytesLt]
    | cons y ys =>
      rcases Nat.lt_trichotomy x y with h | h | h
      · left; simp [bytesLt, h]
      · subst h
        rcases ih ys with h2 | h2 | h2
        · left; simp [bytesLt, h2]
        · right; left; rw [h2]
        · right; right; simp [bytesLt, h2]
      · right; right; simp [bytesLt, h]

theorem bytesLt_asymm {a b : List Nat} (h : bytesLt a b = true) : bytesLt b a = false := by
  cases h2 : bytesLt b a with
  | false => rfl
  | true =>
    have := bytesLt_trans a b a h h2
    rw [bytesLt_irrefl] at this
    exact absurd this (by simp)

theorem bytesLt_ne {a b : List Nat} (h : bytesLt a b = true) : a ≠ b := by
  intro he
  subst he
  rw [bytesLt_irrefl] at h
  exact absurd h (by simp)

/-! Sorted map lemmas. -/

/-- Key order on map entries. -/
def keyLt (p q : List Nat × RespFrame) : Prop := bytesLt p.1 q.1 = true

theorem sortedKeys_iff_pairwise : ∀ l : List (List Nat × RespFrame),
    sortedKeys l = true ↔ l.Pairwise keyLt := by
  intro l
  induction l with
  | nil => simp [sortedKeys]
  | cons hd tl ih =>
    obtain ⟨k1, v1⟩ := hd
    cases tl with
    | nil => simp [sortedKeys, keyLt]
    | cons hd2 tl2 =>
      obtain ⟨k2, v2⟩ := hd2
      rw [List.pairwise_cons]
      constructor
      · intro h
        simp only [sortedKeys, Bool.and_eq_true] at h
        obtain ⟨h1, h2⟩ := h
        have hp := ih.1 h2
        refine ⟨?_, hp⟩
        intro q hq
        rcases List.mem_cons.1 hq with rfl | hq
        · exact h1
        · exact bytesLt_trans _ _ _ h1 ((List.pairwise_cons.1 hp).1 q hq)
      · intro h
        obtain ⟨h1, hp⟩ := h
        simp only [sortedKeys, Bool.and_eq_true]
        exact ⟨h1 (k2, v2) (List.mem_cons_self _ _), ih.2 hp⟩

theorem mapInsert_mem (k : List Nat) (v : RespFrame) :
    ∀ m p, p ∈ mapInsert k v m → p = (k, v) ∨ p ∈ m := by
  intro m
  induction m with
  | nil =>
    intro p hp
    simp only [mapInsert, List.mem_singleton] at hp
    left; exact hp
  | cons hd tl ih =>
    obtain ⟨k1, v1⟩ := hd
    intro p hp
    simp only [mapInsert] at hp
    split_ifs at hp with h1 h2
    · simp only [List.mem_cons] at hp ⊢
      tauto
    · simp only [List.mem_cons] at hp ⊢
      tauto
    · simp only [List.mem_cons] at hp ⊢
      rcases hp with h | h
      · tauto
      · rcases ih p h with h' | h' <;> tauto

theorem mapInsert_pairwise (k : List Nat) (v : RespFrame) :
    ∀ m, m.Pairwise keyLt → (mapInsert k v m).Pairwise keyLt := by
  intro m
  induction m with
  | nil =>
    intro _
    simp [mapInsert]
  | cons hd tl ih =>
    obtain ⟨k1, v1⟩ := hd
    intro hp
    rw [List.pairwise_cons] at hp
    obtain ⟨h1, h2⟩ := hp
    simp only [mapInsert]
    split_ifs with hlt heq
    · rw [List.pairwise_cons]
      refine ⟨?_, List.pairwise_cons.2 ⟨h1, h2⟩⟩
      intro q hq
      rcases List.mem_cons.1 hq with rfl | hq
      · exact hlt
      · exact bytesLt_trans _ _ _ hlt (h1 q hq)
    · subst heq
      rw [List.pairwise_cons]
      exact ⟨fun q hq => h1 q hq, h2⟩
    · have hk1k : bytesLt k1 k = true := by
        rcases bytesLt_total k k1 with h | h | h
        · exact absurd h hlt
        · exact absurd h heq
        · exact h
      rw [List.pairwise_cons]
      refine ⟨?_, ih h2⟩
      intro q hq
      rcases mapInsert_mem k v tl q hq with rfl | hq
      · exact hk1k
      · exact h1 q hq

theorem mapInsert_sorted {m : List (List Nat × RespFrame)} (k : List Nat) (v : RespFrame)
    (h : sortedKeys m = true) : sortedKeys (mapInsert k v m) = true :=
  (sortedKeys_iff_pairwise _).2 (mapInsert_pairwise k v m ((sortedKeys_iff_pairwise _).1 h))

theorem mapInsert_mapsSortedPairs (k : List Nat) (v : RespFrame) :
    ∀ m, mapsSortedPairs m = true → mapsSorted v = true →
    mapsSortedPairs (mapInsert k v m) = true := by
  intro m
  induction m with
  | nil =>
    intro _ hv
    simp [mapInsert, mapsSortedPairs, hv]
  | cons hd tl ih =>
    obtain ⟨k1, v1⟩ := hd
    intro hm hv
    simp only [mapsSortedPairs, Bool.and_eq_true] at hm
    simp only [mapInsert]
    split_ifs with h1 h2
    · simp [mapsSortedPairs, hv, hm.1, hm.2]
    · simp [mapsSortedPairs, hv, hm.2]
    · simp [mapsSortedPairs, hm.1, ih hm.2 hv]

theorem mapInsert_append (k : List Nat) (v : RespFrame) :
    ∀ acc : List (List Nat × RespFrame), (∀ q ∈ acc, bytesLt q.1 k = true) →
    mapInsert k v acc = acc ++ [(k, v)] := by
  intro acc
  induction acc with
  | nil => intro _; rfl
  | cons hd tl ih =>
    obtain ⟨k1, v1⟩ := hd
    intro h
    have h1 : bytesLt k1 k = true := h (k1, v1) (List.mem_cons_self _ _)
    simp only [mapInsert]
    rw [if_neg (by simp [bytesLt_asymm h1]), if_neg (fun he => bytesLt_ne h1 he.symm)]
    rw [ih (fun q hq => h q (List.mem_cons_of_mem _ hq))]
    simp

/-! Well-formedness member lemmas. -/

theorem wfList_mem : ∀ fs : List RespFrame, wfList fs = true → ∀ f ∈ fs, wfFrame f = true := by
  intro fs
  induction fs with
  | nil => intro _ f hf; simp at hf
  | cons g gs ih =>
    intro h f hf
    simp only [wfList, Bool.and_eq_true] at h
    rcases List.mem_cons.1 hf with rfl | hf
    · exact h.1
    · exact ih h.2 f hf

theorem wfPairs_mem : ∀ kvs : List (List Nat × RespFrame), wfPairs kvs = true → ∀ kv ∈ kvs,
    utf8Valid kv.1 = true ∧ noCRLF kv.1 = true ∧ wfFrame kv.2 = true := by
  intro kvs
  induction kvs with
  | nil => intro _ kv hkv; simp at hkv
  | cons p ps ih =>
    obtain ⟨k, v⟩ := p
    intro h kv hkv
    simp only [wfPairs, Bool.and_eq_true] at h
    rcases List.mem_cons.1 hkv with rfl | hkv
    · exact ⟨h.1.1.1, h.1.1.2, h.1.2⟩
    · exact ih h.2 kv hkv

/-! Encoding length bounds. -/

theorem encodeList_mem_le : ∀ fs : List RespFrame, ∀ f ∈ fs,
    (encode f).length ≤ (encodeList fs).length := by
  intro fs
  induction fs with
  | nil => intro f hf; simp at hf
  | cons g gs ih =>
    intro f hf
    simp only [encodeList, List.length_append]
    rcases List.mem_cons.1 hf with rfl | hf
    · omega
    · have := ih f hf
      omega

theorem encodePairs_mem_le : ∀ kvs : List (List Nat × RespFrame), ∀ kv ∈ kvs,
    (encode kv.2).length ≤ (encodePairs kvs).length ∧
    kv.1.length + 3 ≤ (encodePairs kvs).length := by
  intro kvs
  induction kvs with
  | nil => intro kv hkv; simp at hkv
  | cons p ps ih =>
    obtain ⟨k, v⟩ := p
    intro kv hkv
    simp only [encodePairs, List.length_append, List.length_cons, crlf]
    rcases List.mem_cons.1 hkv with rfl | hkv
    · simp only [List.length_append, List.length_cons, List.length_nil]
      omega
    · have := ih kv hkv
      omega

/-! Round-trip helpers for container bodies. -/

theorem parseMany_ok (p : List Nat → Except RespError (RespFrame × List Nat)) :
    ∀ (fs : List RespFrame) (rest : List Nat),
    (∀ f ∈ fs, ∀ r, p (encode f ++ r) = .ok (f, r)) →
    parseMany p fs.length (encodeList fs ++ rest) = .ok (fs, rest) := by
  intro fs
  induction fs with
  | nil => intro rest _; simp [parseMany, encodeList]
  | cons f fs ih =>
    intro rest hp
    simp only [encodeList, List.length_cons, List.append_assoc]
    simp only [parseMany, hp f (List.mem_cons_self f fs) (encodeList fs ++ rest),
      ih rest (fun g hg r => hp g (List.mem_cons_of_mem f hg) r)]

theorem parsePairsM_ok (p : List Nat → Except RespError (RespFrame × List Nat)) :
    ∀ (kvs acc : List (List Nat × RespFrame)) (rest : List Nat),
    (∀ kv ∈ kvs,
      (∀ r, p (encode (RespFrame.SimpleString kv.1) ++ r) = .ok (RespFrame.SimpleString kv.1, r)) ∧
      (∀ r, p (encode kv.2 ++ r) = .ok (kv.2, r))) →
    sortedKeys (acc ++ kvs) = true →
    parsePairsM p kvs.length (encodePairs kvs ++ rest) acc = .ok (acc ++ kvs, rest) := by
  intro kvs
  induction kvs with
  | nil => intro acc rest _ _; simp [parsePairsM, encodePairs]
  | cons kv kvs ih =>
    obtain ⟨k, v⟩ := kv
    intro acc rest hp hs
    have hk := (hp (k, v) (List.mem_cons_self _ _)).1
    have hv := (hp (k, v) (List.mem_cons_self _ _)).2
    have hshape : encodePairs ((k, v) :: kvs) ++ rest =
        encode (RespFrame.SimpleString k) ++ (encode v ++ (encodePairs kvs ++ rest)) := by
      simp [encodePairs, encode, List.append_assoc]
    rw [List.length_cons, hshape]
    simp only [parsePairsM, hk (encode v ++ (encodePairs kvs ++ rest)), hv (encodePairs kvs ++ rest)]
    have hins : mapInsert k v acc = acc ++ [(k, v)] := by
      have hpw := (sortedKeys_iff_pairwise _).1 hs
      rw [List.pairwise_append] at hpw
      exact mapInsert_append k v acc
        (fun q hq => hpw.2.2 q hq (k, v) (List.mem_cons_self _ _))
    rw [hins]
    have hs' : sortedKeys ((acc ++ [(k, v)]) ++ kvs) = true := by
      rw [List.append_assoc]
      simpa using hs
    rw [ih (acc ++ [(k, v)]) rest (fun g hg => hp g (List.mem_cons_of_mem _ hg)) hs']
    simp

/-! The encode-then-decode round trip. -/

theorem parseFrame_encode : ∀ fuel (f : RespFrame) (rest : List Nat), wfFrame f = true →
    (encode f).length < fuel → parseFrame fuel (encode f ++ rest) = .ok (f, rest) := by
  intro fuel
  induction fuel with
  | zero => intro f rest _ h; omega
  | succ fuel ih =>
    intro f rest hwf hlen
    cases f with
    | SimpleString s =>
      simp only [wfFrame, Bool.and_eq_true] at hwf
      have hsh : encode (.SimpleString s) ++ rest = 43 :: (s ++ (13 :: 10 :: rest)) := by
        simp [encode, crlf, List.append_assoc]
      rw [hsh]
      simp only [parseFrame, parseMarker]
      norm_num
      rw [splitLine_append s rest (noCRLF_not13 hwf.2)]
      simp [hwf.1]
    | Error s =>
      simp only [wfFrame, Bool.and_eq_true] at hwf
      have hsh : encode (.Error s) ++ rest = 45 :: (s ++ (13 :: 10 :: rest)) := by
        simp [encode, crlf, List.append_assoc]
      rw [hsh]
      simp only [parseFrame, parseMarker]
      norm_num
      rw [splitLine_append s rest (noCRLF_not13 hwf.2)]
      simp [hwf.1]
    | Integer n =>
      have hsh : encode (.Integer n) ++ rest = 58 :: (intToBytes n ++ (13 :: 10 :: rest)) := by
        simp [encode, crlf, List.append_assoc]
      rw [hsh]
      simp only [parseFrame, parseMarker]
      norm_num
      rw [splitLine_append _ rest (intToBytes_not13 n)]
      simp only [parseIntBytes_intToBytes]
    | BulkString b =>
      have hsh : encode (.BulkString b) ++ rest =
          36 :: (natToDigits b.length ++ (13 :: 10 :: (b ++ 13 :: 10 :: rest))) := by
        simp [encode, crlf, List.append_assoc]
      rw [hsh]
      simp only [parseFrame, parseMarker]
      norm_num
      rw [splitLine_append _ _ (natToDigits_not13 _)]
      simp only [parseIntBytes_natToDigits]
      rw [if_neg (by omega), if_neg (by omega)]
      simp only [Int.toNat_natCast]
      rw [if_neg (by simp), List.drop_left, List.take_left]
    | NullBulkString => rfl
    | Array xs =>
      simp only [wfFrame] at hwf
      have hsh : encode (.Array xs) ++ rest =
          42 :: (natToDigits xs.length ++ (13 :: 10 :: (encodeList xs ++ rest))) := by
        simp [encode, crlf, List.append_assoc]
      rw [hsh]
      simp only [parseFrame, parseMarker]
      norm_num
      rw [splitLine_append _ _ (natToDigits_not13 _)]
      simp only [parseIntBytes_natToDigits]
      rw [if_neg (by omega), if_neg (by omega)]
      simp only [Int.toNat_natCast]
      have hbound : (encodeList xs).length + 4 ≤ (encode (.Array xs)).length := by
        have := natToDigits_length_pos xs.length
        simp [encode, crlf]
        omega
      have hmany := parseMany_ok (fun bb => parseFrame fuel bb) xs rest ?_
      · rw [hmany]
      · intro g hg r
        apply ih g r (wfList_mem xs hwf g hg)
        have h1 := encodeList_mem_le xs g hg
        omega
    | NullArray => rfl
    | Null => rfl
    | Boolean b => cases b <;> rfl
    | Double d =>
      cases d with
      | NaN => rfl
      | Num s =>
        simp only [wfFrame, wfF64] at hwf
        have hsh : encode (.Double (.Num s)) ++ rest = 44 :: (s ++ (13 :: 10 :: rest)) := by
          simp [encode, f64Bytes, crlf, List.append_assoc]
        rw [hsh]
        simp only [parseFrame, parseMarker]
        norm_num
        rw [splitLine_append s rest (floatTextOk_not13 hwf)]
        simp [parseF64, floatTextOk_ne_nan hwf, hwf]
    | Map kvs =>
      simp only [wfFrame, Bool.and_eq_true] at hwf
      obtain ⟨hsort, hpairs⟩ := hwf
      have hsh : encode (.Map kvs) ++ rest =
          37 :: (natToDigits kvs.length ++ (13 :: 10 :: (encodePairs kvs ++ rest))) := by
        simp [encode, crlf, List.append_assoc]
      rw [hsh]
      simp only [parseFrame, parseMarker]
      norm_num
      rw [splitLine_append _ _ (natToDigits_not13 _)]
      simp only [parseIntBytes_natToDigits]
      rw [if_neg (by omega)]
      simp only [Int.toNat_natCast]
      have hbound : (encodePairs kvs).length + 4 ≤ (encode (.Map kvs)).length := by
        have := natToDigits_length_pos kvs.length
        simp [encode, crlf]
        omega
      have hx : ∀ kv ∈ kvs,
          (∀ r, parseFrame fuel (encode (RespFrame.SimpleString kv.1) ++ r) =
            .ok (RespFrame.SimpleString kv.1, r)) ∧
          (∀ r, parseFrame fuel (encode kv.2 ++ r) = .ok (kv.2, r)) := by
        intro kv hkv
        have hmem := wfPairs_mem kvs hpairs kv hkv
        have hb := encodePairs_mem_le kvs kv hkv
        constructor
        · intro r
          apply ih _ r (by simp [wfFrame, hmem.1, hmem.2.1])
          have hlen1 : (encode (RespFrame.SimpleString kv.1)).length = kv.1.length + 3 := by
            simp [encode, crlf]
          omega
        · intro r
          exact ih kv.2 r hmem.2.2 (by have := hb.1; omega)
      have hmany := parsePairsM_ok (fun bb => parseFrame fuel bb) kvs [] rest hx
        (by simpa using hsort)
      rw [hmany]
      simp
    | Set xs =>
      simp only [wfFrame] at hwf
      have hsh : encode (.Set xs) ++ rest =
          126 :: (natToDigits xs.length ++ (13 :: 10 :: (encodeList xs ++ rest))) := by
        simp [encode, crlf, List.append_assoc]
      rw [hsh]
      simp only [parseFrame, parseMarker]
      norm_num
      rw [splitLine_append _ _ (natToDigits_not13 _)]
      simp only [parseIntBytes_natToDigits]
      rw [if_neg (by omega)]
      simp only [Int.toNat_natCast]
      have hbound : (encodeList xs).length + 4 ≤ (encode (.Set xs)).length := by
        have := natToDigits_length_pos xs.length
        simp [encode, crlf]
        omega
      have hmany := parseMany_ok (fun bb => parseFrame fuel bb) xs rest ?_
      · rw [hmany]
      · intro g hg r
        apply ih g r (wfList_mem xs hwf g hg)
        have h1 := encodeList_mem_le xs g hg
        omega

/-! Every frame the decoder produces keeps all its Map bodies sorted. -/

theorem parseMany_inv (p : List Nat → Except RespError (RespFrame × List Nat))
    (hp : ∀ b f r, p b = .ok (f, r) → mapsSorted f = true) :
    ∀ (n : Nat) (buf : List Nat) (fs : List RespFrame) (rest : List Nat),
    parseMany p n buf = .ok (fs, rest) → mapsSortedList fs = true := by
  intro n
  induction n with
  | zero =>
    intro buf fs rest h
    simp only [parseMany, Except.ok.injEq, Prod.mk.injEq] at h
    obtain ⟨rfl, rfl⟩ := h
    rfl
  | succ n ih =>
    intro buf fs rest h
    simp only [parseMany] at h
    split at h
    · exact absurd h (by simp)
    · rename_i f1 rest1 heq
      split at h
      · exact absurd h (by simp)
      · rename_i fs2 rest2 heq2
        simp only [Except.ok.injEq, Prod.mk.injEq] at h
        obtain ⟨rfl, rfl⟩ := h
        simp only [mapsSortedList, Bool.and_eq_true]
        exact ⟨hp _ _ _ heq, ih _ _ _ heq2⟩

theorem parsePairsM_inv (p : List Nat → Except RespError (RespFrame × List Nat))
    (hp : ∀ b f r, p b = .ok (f, r) → mapsSorted f = true) :
    ∀ (n : Nat) (buf : List Nat) (acc m : List (List Nat × RespFrame)) (rest : List Nat),
    parsePairsM p n buf acc = .ok (m, rest) →
    sortedKeys acc = true → mapsSortedPairs acc = true →
    sortedKeys m = true ∧ mapsSortedPairs m = true := by
  intro n
  induction n with
  | zero =>
    intro buf acc m rest h hs hm
    simp only [parsePairsM, Except.ok.injEq, Prod.mk.injEq] at h
    obtain ⟨rfl, rfl⟩ := h
    exact ⟨hs, hm⟩
  | succ n ih =>
    intro buf acc m rest h hs hm
    simp only [parsePairsM] at h
    split at h
    · exact absurd h (by simp)
    · rename_i k rest1 heq
      split at h
      · exact absurd h (by simp)
      · rename_i v rest2 heq2
        exact ih _ _ _ _ h (mapInsert_sorted k v hs)
          (mapInsert_mapsSortedPairs k v acc hm (hp _ _ _ heq2))
    · exact absurd h (by simp)

/-- Marker equation: a buffer led by the SimpleString marker. -/
theorem parseMarker_simpleString (p : List Nat → Except RespError (RespFrame × List Nat))
    (rest : List Nat) :
    parseMarker p 43 rest =
      match splitLine rest with
      | none => .error RespError.NotComplete
      | some (line, after) =>
        if utf8Valid line then .ok (RespFrame.SimpleString line, after)
        else .error RespError.Utf8Error := rfl

/-- Marker equation: a buffer led by the SimpleError marker. -/
theorem parseMarker_simpleError (p : List Nat → Except RespError (RespFrame × List Nat))
    (rest : List Nat) :
    parseMarker p 45 rest =
      match splitLine rest with
      | none => .error RespError.NotComplete
      | some (line, after) =>
        if utf8Valid line then .ok (RespFrame.Error line, after)
        else .error RespError.Utf8Error := rfl

/-- Marker equation: a buffer led by the Integer marker. -/
theorem parseMarker_integer (p : List Nat → Except RespError (RespFrame × List Nat))
    (rest : List Nat) :
    parseMarker p 58 rest =
      match splitLine rest with
      | none => .error RespError.NotComplete
      | some (line, after) =>
        match parseIntBytes line with
        | none => .error RespError.ParseIntError
        | some n => .ok (RespFrame.Integer n, after) := rfl

/-- Marker equation: a buffer led by the BulkString marker. -/
theorem parseMarker_bulk (p : List Nat → Except RespError (RespFrame × List Nat))
    (rest : List Nat) :
    parseMarker p 36 rest =
      match splitLine rest with
      | none => .error RespError.NotComplete
      | some (line, after) =>
        match parseIntBytes line with
        | none => .error RespError.ParseIntError
        | some n =>
          if n = -1 then .ok (RespFrame.NullBulkString, after)
          else if n < 0 then .error (RespError.InvalidFrameLength n)
          else if after.length < n.toNat + 2 then .error RespError.NotComplete
          else
            match after.drop n.toNat with
            | 13 :: 10 :: tail => .ok (RespFrame.BulkString (after.take n.toNat), tail)
            | _ => .error (RespError.InvalidFrame "bulk string missing terminator") := rfl

/-- Marker equation: a buffer led by the Array marker. -/
theorem parseMarker_array (p : List Nat → Except RespError (RespFrame × List Nat))
    (rest : List Nat) :
    parseMarker p 42 rest =
      match splitLine rest with
      | none => .error RespError.NotComplete
      | some (line, after) =>
        match parseIntBytes line with
        | none => .error RespError.ParseIntError
        | some n =>
          if n = -1 then .ok (RespFrame.NullArray, after)
          else if n < 0 then .error (RespError.InvalidFrameLength n)
          else
            match parseMany p n.toNat after with
            | .error e => .error e
            | .ok (fs, rest2) => .ok (RespFrame.Array fs, rest2) := rfl

/-- Marker equation: a buffer led by the Null marker. -/
theorem parseMarker_null (p : List Nat → Except RespError (RespFrame × List Nat))
    (rest : List Nat) :
    parseMarker p 95 rest =
      match splitLine rest with
      | none => .error RespError.NotComplete
      | some (line, after) =>
        if line = [] then .ok (RespFrame.Null, after)
        else .error (RespError.InvalidFrame "null frame carries no payload") := rfl

/-- Marker equation: a buffer led by the Boolean marker. -/
theorem parseMarker_boolean (p : List Nat → Except RespError (RespFrame × List Nat))
    (rest : List Nat) :
    parseMarker p 35 rest =
      match splitLine rest with
      | none => .error RespError.NotComplete
      | some (line, after) =>
        if line = [116] then .ok (RespFrame.Boolean true, after)
        else if line = [102] then .ok (RespFrame.Boolean false, after)
        else .error (RespError.InvalidFrame "boolean must be t or f") := rfl

/-- Marker equation: a buffer led by the Double marker. -/
theorem parseMarker_double (p : List Nat → Except RespError (RespFrame × List Nat))
    (rest : List Nat) :
    parseMarker p 44 rest =
      match splitLine rest with
      | none => .error RespError.NotComplete
      | some (line, after) =>
        match parseF64 line with
        | none => .error RespError.ParseFloatError
        | some d => .ok (RespFrame.Double d, after) := rfl

/-- Marker equation: a buffer led by the Map marker. -/
theorem parseMarker_map (p : List Nat → Except RespError (RespFrame × List Nat))
    (rest : List Nat) :
    parseMarker p 37 rest =
      match splitLine rest with
      | none => .error RespError.NotComplete
      | some (line, after) =>
        match parseIntBytes line with
        | none => .error RespError.ParseIntError
        | some n =>
          if n < 0 then .error (RespError.InvalidFrameLength n)
          else
            match parsePairsM p n.toNat after [] with
            | .error e => .error e
            | .ok (kvs, rest2) => .ok (RespFrame.Map kvs, rest2) := rfl

/-- Marker equation: a buffer led by the Set marker. -/
theorem parseMarker_set (p : List Nat → Except RespError (RespFrame × List Nat))
    (rest : List Nat) :
    parseMarker p 126 rest =
      match splitLine rest with
      | none => .error RespError.NotComplete
      | some (line, after) =>
        match parseIntBytes line with
        | none => .error RespError.ParseIntError
        | some n =>
          if n < 0 then .error (RespError.InvalidFrameLength n)
          else
            match parseMany p n.toNat after with
            | .error e => .error e
            | .ok (fs, rest2) => .ok (RespFrame.Set fs, rest2) := rfl

/-- Marker equation: an unknown marker byte. -/
theorem parseMarker_other (p : List Nat → Except RespError (RespFrame × List Nat))
    (b : Nat) (rest : List Nat) (h43 : b ≠ 43) (h45 : b ≠ 45) (h58 : b ≠ 58) (h36 : b ≠ 36)
    (h42 : b ≠ 42) (h95 : b ≠ 95) (h35 : b ≠ 35) (h44 : b ≠ 44) (h37 : b ≠ 37)
    (h126 : b ≠ 126) :
    parseMarker p b rest = .error (RespError.InvalidFrameType "unknown marker byte") := by
  unfold parseMarker
  rw [if_neg h43, if_neg h45, if_neg h58, if_neg h36, if_neg h42, if_neg h95, if_neg h35,
    if_neg h44, if_neg h37, if_neg h126]

theorem parseFrame_inv : ∀ (fuel : Nat) (buf : List Nat) (f : RespFrame) (rest : List Nat),
    parseFrame fuel buf = .ok (f, rest) → mapsSorted f = true := by
  intro fuel
  induction fuel with
  | zero => intro buf f rest h; exact absurd h (by simp [parseFrame])
  | succ fuel ih =>
    intro buf f rest h
    cases buf with
    | nil => exact absurd h (by simp [parseFrame])
    | cons b r =>
      rw [parseFrame.eq_3] at h
      by_cases e1 : b = 43
      case pos =>
        subst e1
        rw [parseMarker_simpleString] at h
        split at h
        · exact absurd h (by simp)
        · split_ifs at h
          simp only [Except.ok.injEq, Prod.mk.injEq] at h
          obtain ⟨rfl, rfl⟩ := h
          rfl
      by_cases e2 : b = 45
      case pos =>
        subst e2
        rw [parseMarker_simpleError] at h
        split at h
        · exact absurd h (by simp)
        · split_ifs at h
          simp only [Except.ok.injEq, Prod.mk.injEq] at h
          obtain ⟨rfl, rfl⟩ := h
          rfl
      by_cases e3 : b = 58
      case pos =>
        subst e3
        rw [parseMarker_integer] at h
        split at h
        · exact absurd h (by simp)
        · split at h
          · exact absurd h (by simp)
          · simp only [Except.ok.injEq, Prod.mk.injEq] at h
            obtain ⟨rfl, rfl⟩ := h
            rfl
      by_cases e4 : b = 36
      case pos =>
        subst e4
        rw [parseMarker_bulk] at h
        split at h
        · exact absurd h (by simp)
        · split at h
          · exact absurd h (by simp)
          · split_ifs at h
            · simp only [Except.ok.injEq, Prod.mk.injEq] at h
              obtain ⟨rfl, rfl⟩ := h
              rfl
            · split at h
              · simp only [Except.ok.injEq, Prod.mk.injEq] at h
                obtain ⟨rfl, rfl⟩ := h
                rfl
              · exact absurd h (by simp)
      by_cases e5 : b = 42
      case pos =>
        subst e5
        rw [parseMarker_array] at h
        split at h
        · exact absurd h (by simp)
        · split at h
          · exact absurd h (by simp)
          · split_ifs at h
            · simp only [Except.ok.injEq, Prod.mk.injEq] at h
              obtain ⟨rfl, rfl⟩ := h
              rfl
            · split at h
              · exact absurd h (by simp)
              · rename_i fs rest2 heq
                simp only [Except.ok.injEq, Prod.mk.injEq] at h
                obtain ⟨rfl, rfl⟩ := h
                simp only [mapsSorted]
                exact parseMany_inv _ (fun b2 f2 r2 hh => ih b2 f2 r2 hh) _ _ _ _ heq
      by_cases e6 : b = 95
      case pos =>
        subst e6
        rw [parseMarker_null] at h
        split at h
        · exact absurd h (by simp)
        · split_ifs at h
          simp only [Except.ok.injEq, Prod.mk.injEq] at h
          obtain ⟨rfl, rfl⟩ := h
          rfl
      by_cases e7 : b = 35
      case pos =>
        subst e7
        rw [parseMarker_boolean] at h
        split at h
        · exact absurd h (by simp)
        · split_ifs at h
          · simp only [Except.ok.injEq, Prod.mk.injEq] at h
            obtain ⟨rfl, rfl⟩ := h
            rfl
          · simp only [Except.ok.injEq, Prod.mk.injEq] at h
            obtain ⟨rfl, rfl⟩ := h
            rfl
      by_cases e8 : b = 44
      case pos =>
        subst e8
        rw [parseMarker_double] at h
        split at h
        · exact absurd h (by simp)
        · split at h
          · exact absurd h (by simp)
          · simp only [Except.ok.injEq, Prod.mk.injEq] at h
            obtain ⟨rfl, rfl⟩ := h
            rfl
      by_cases e9 : b = 37
      case pos =>
        subst e9
        rw [parseMarker_map] at h
        split at h
        · exact absurd h (by simp)
        · split at h
          · exact absurd h (by simp)
          · split_ifs at h
            split at h
            · exact absurd h (by simp)
            · rename_i kvs rest2 heq
              simp only [Except.ok.injEq, Prod.mk.injEq] at h
              obtain ⟨rfl, rfl⟩ := h
              have hinv := parsePairsM_inv _ (fun b2 f2 r2 hh => ih b2 f2 r2 hh)
                _ _ _ _ _ heq rfl rfl
              simp only [mapsSorted, Bool.and_eq_true]
              exact hinv
      by_cases e10 : b = 126
      case pos =>
        subst e10
        rw [parseMarker_set] at h
        split at h
        · exact absurd h (by simp)
        · split at h
          · exact absurd h (by simp)
          · split_ifs at h
            split at h
            · exact absurd h (by simp)
            · rename_i fs rest2 heq
              simp only [Except.ok.injEq, Prod.mk.injEq] at h
              obtain ⟨rfl, rfl⟩ := h
              simp only [mapsSorted]
              exact parseMany_inv _ (fun b2 f2 r2 hh => ih b2 f2 r2 hh) _ _ _ _ heq
      rw [parseMarker_other _ _ _ e1 e2 e3 e4 e5 e6 e7 e8 e9 e10] at h
      exact absurd h (by simp)

/-! Claim theorems. -/

/-- Claim C1, counterexample to the claim as stated: the frame
SimpleString "a\x0D\x0Ab" is constructible (SimpleString::new performs no
validation, see C9), but decoding its encoding stops at the embedded CRLF
and returns SimpleString "a" with three bytes left over, so
decode(encode(f)) = Ok(f) with an empty remainder fails for it. -/
theorem roundtrip_claim_counterexample :
    decode (encode (RespFrame.SimpleString [97, 13, 10, 98])) ≠
      (Except.ok (RespFrame.SimpleString [97, 13, 10, 98]), ([] : List Nat)) := by
  intro hcl
  have hev : decode (encode (RespFrame.SimpleString [97, 13, 10, 98])) =
      (Except.ok (RespFrame.SimpleString [97]), [98, 13, 10]) := rfl
  rw [hev] at hcl
  simp at hcl

/-- Claim C1, amended: for every constructible Frame whose SimpleString and
SimpleError payloads and Map keys are free of CR and LF bytes (wfFrame —
the other wfFrame conjuncts, UTF-8-valid text, sorted map keys and
well-formed float text, hold of every value constructible in the Rust
types), encoding and then decoding from an otherwise-empty buffer returns
exactly the frame with zero bytes remaining.  Decoded Map key order is
sorted, which for constructible (BTreeMap-backed, hence key-sorted) maps
is the identity. -/
theorem decode_encode_roundtrip : ∀ f : RespFrame, wfFrame f = true →
    decode (encode f) = (Except.ok f, ([] : List Nat)) := by
  intro f h
  unfold decode
  have hp := parseFrame_encode ((encode f).length + 1) f [] h (by omega)
  rw [List.append_nil] at hp
  rw [hp]

/-- Claim C1, witness: a nested frame with bulk bytes, a two-entry map, a
double and a boolean round-trips. -/
theorem decode_encode_roundtrip_witness :
    wfFrame (RespFrame.Array [RespFrame.BulkString [1, 255],
      RespFrame.Map [([97], RespFrame.Integer (-5)),
        ([98, 99], RespFrame.Double (F64.Num [49, 46, 53]))],
      RespFrame.Boolean true, RespFrame.Null]) = true ∧
    decode (encode (RespFrame.Array [RespFrame.BulkString [1, 255],
      RespFrame.Map [([97], RespFrame.Integer (-5)),
        ([98, 99], RespFrame.Double (F64.Num [49, 46, 53]))],
      RespFrame.Boolean true, RespFrame.Null])) =
      (Except.ok (RespFrame.Array [RespFrame.BulkString [1, 255],
        RespFrame.Map [([97], RespFrame.Integer (-5)),
          ([98, 99], RespFrame.Double (F64.Num [49, 46, 53]))],
        RespFrame.Boolean true, RespFrame.Null]), ([] : List Nat)) :=
  ⟨by decide, decode_encode_roundtrip _ (by decide)⟩

/-- Claim C2: whenever decode reports NotComplete, the buffer after the call
is byte-for-byte the buffer before the call, and in particular has the
same length; this covers NotComplete raised by a recursive sub-decode of a
container frame, since the modelled decoder hands back the original buffer
on every failure path. -/
theorem decode_notComplete_unchanged : ∀ (buf : List Nat) (res : Except RespError RespFrame)
    (after : List Nat), decode buf = (res, after) →
    res = Except.error RespError.NotComplete →
    after = buf ∧ after.length = buf.length := by
  intro buf res after hdec hres
  subst hres
  unfold decode at hdec
  split at hdec
  · simp at hdec
  · simp only [Prod.mk.injEq] at hdec
    obtain ⟨-, h2⟩ := hdec
    subst h2
    exact ⟨rfl, rfl⟩

/-- Claim C2, witness: a container frame whose second element has not arrived
yet ("*2\x0D\x0A+OK\x0D\x0A") leaves the nine-byte buffer untouched. -/
theorem decode_notComplete_unchanged_witness :
    ([42, 50, 13, 10, 43, 79, 75, 13, 10] : List Nat) = [42, 50, 13, 10, 43, 79, 75, 13, 10] ∧
    ([42, 50, 13, 10, 43, 79, 75, 13, 10] : List Nat).length =
      ([42, 50, 13, 10, 43, 79, 75, 13, 10] : List Nat).length :=
  decode_notComplete_unchanged [42, 50, 13, 10, 43, 79, 75, 13, 10]
    (Except.error RespError.NotComplete) [42, 50, 13, 10, 43, 79, 75, 13, 10] rfl rfl

/-- Claim C3: a BulkString length prefix that is a negative number other than
the reserved -1 fails with InvalidFrameLength carrying that number (for
every such prefix and every remainder of the buffer), and a non-numeric
length prefix ("$ab\x0D\x0A") fails with the wrapped integer-parse error;
neither outcome is NotComplete, as the stated error values show. -/
theorem bulk_negative_length_rejected :
    (∀ (n : Int) (tail : List Nat), n < -1 →
      decode (36 :: (intToBytes n ++ 13 :: 10 :: tail)) =
        (Except.error (RespError.InvalidFrameLength n),
          36 :: (intToBytes n ++ 13 :: 10 :: tail))) ∧
    decode [36, 97, 98, 13, 10] =
      (Except.error RespError.ParseIntError, [36, 97, 98, 13, 10]) := by
  constructor
  · intro n tail hn
    unfold decode
    rw [parseFrame.eq_3, parseMarker_bulk]
    rw [splitLine_append _ _ (intToBytes_not13 n)]
    simp only [parseIntBytes_intToBytes]
    rw [if_neg (by omega), if_pos (by omega)]
  · rfl

/-- Claim C3, witness: the length prefix -2 is rejected with
InvalidFrameLength (-2). -/
theorem bulk_negative_length_rejected_witness :
    decode (36 :: (intToBytes (-2) ++ 13 :: 10 :: [])) =
      (Except.error (RespError.InvalidFrameLength (-2)),
        36 :: (intToBytes (-2) ++ 13 :: 10 :: [])) :=
  bulk_negative_length_rejected.1 (-2) [] (by norm_num)

/-- Claim C4: every frame decode returns satisfies mapsSorted, so every
decoded Map frame, nested ones included, holds its entries sorted by key
regardless of arrival order; and the concrete wire bytes of
"%2\x0D\x0A+first\x0D\x0A:1\x0D\x0A+second\x0D\x0A:2\x0D\x0A" decode to the
map with entries ("first", Integer 1), ("second", Integer 2) iterated in
sorted key order with nothing left in the buffer. -/
theorem decoded_maps_sorted :
    (∀ (buf : List Nat) (f : RespFrame) (rest : List Nat),
      decode buf = (Except.ok f, rest) → mapsSorted f = true) ∧
    decode [37, 50, 13, 10, 43, 102, 105, 114, 115, 116, 13, 10, 58, 49, 13, 10,
        43, 115, 101, 99, 111, 110, 100, 13, 10, 58, 50, 13, 10] =
      (Except.ok (RespFrame.Map [([102, 105, 114, 115, 116], RespFrame.Integer 1),
        ([115, 101, 99, 111, 110, 100], RespFrame.Integer 2)]), ([] : List Nat)) := by
  constructor
  · intro buf f rest h
    unfold decode at h
    split at h
    · rename_i f1 rest1 heq
      simp only [Prod.mk.injEq, Except.ok.injEq] at h
      obtain ⟨rfl, rfl⟩ := h
      exact parseFrame_inv _ _ _ _ heq
    · simp at h
  · rfl

/-- Claim C4, witness: the decoded example map passes the sortedness
invariant. -/
theorem decoded_maps_sorted_witness :
    mapsSorted (RespFrame.Map [([102, 105, 114, 115, 116], RespFrame.Integer 1),
      ([115, 101, 99, 111, 110, 100], RespFrame.Integer 2)]) = true :=
  decoded_maps_sorted.1 [37, 50, 13, 10, 43, 102, 105, 114, 115, 116, 13, 10, 58, 49, 13, 10,
      43, 115, 101, 99, 111, 110, 100, 13, 10, 58, 50, 13, 10]
    (RespFrame.Map [([102, 105, 114, 115, 116], RespFrame.Integer 1),
      ([115, 101, 99, 111, 110, 100], RespFrame.Integer 2)]) [] rfl

/-- Claim C5: encode is a total Lean function on frames (type
RespFrame → List Nat, no error or option in the codomain, hence no failure
path in the model), and it produces a nonempty byte sequence — at least
the marker byte — for every constructible frame. -/
theorem encode_total : ∀ f : RespFrame, 0 < (encode f).length := by
  intro f
  cases f
  case Boolean b => cases b <;> simp [encode]
  all_goals simp [encode]

/-- Claim C6: the wire bytes of
"*3\x0D\x0A$4\x0D\x0Ahget\x0D\x0A$3\x0D\x0Akey\x0D\x0A$5\x0D\x0Afield\x0D\x0A"
decode to the three-element hget array; HGet::try_from on that array
returns Ok with key "key" and field "field"; and the same array with the
field element missing fails with the shared argument-validation error. -/
theorem hget_arity :
    decode [42, 51, 13, 10, 36, 52, 13, 10, 104, 103, 101, 116, 13, 10, 36, 51, 13, 10,
        107, 101, 121, 13, 10, 36, 53, 13, 10, 102, 105, 101, 108, 100, 13, 10] =
      (Except.ok (RespFrame.Array [RespFrame.BulkString [104, 103, 101, 116],
        RespFrame.BulkString [107, 101, 121],
        RespFrame.BulkString [102, 105, 101, 108, 100]]), ([] : List Nat)) ∧
    hgetTryFrom [RespFrame.BulkString [104, 103, 101, 116],
        RespFrame.BulkString [107, 101, 121],
        RespFrame.BulkString [102, 105, 101, 108, 100]] =
      Except.ok ⟨[107, 101, 121], [102, 105, 101, 108, 100]⟩ ∧
    hgetTryFrom [RespFrame.BulkString [104, 103, 101, 116],
        RespFrame.BulkString [107, 101, 121]] =
      Except.error (CommandError.invalidArgument "wrong number of arguments") :=
  ⟨rfl, rfl, rfl⟩

/-- Claim C7: Get::try_from rejects every array whose leading BulkString is
not exactly the bytes "get" — whatever the rest of the array, so also when
the arity matches — and in particular rejects the set-shaped array
[BulkString "set", BulkString "key"] whose arity matches get's. -/
theorem get_rejects_wrong_name :
    (∀ (name : List Nat) (tail : List RespFrame), name ≠ [103, 101, 116] →
      (getTryFrom (RespFrame.BulkString name :: tail)).isOk = false) ∧
    (getTryFrom [RespFrame.BulkString [115, 101, 116],
      RespFrame.BulkString [107, 101, 121]]).isOk = false := by
  constructor
  · intro name tail hne
    unfold getTryFrom validateCommand
    by_cases hlen : (RespFrame.BulkString name :: tail).length =
        [[103, 101, 116]].length + 1
    · rw [if_pos hlen]
      simp only [validateNames]
      rw [if_neg hne]
      rfl
    · rw [if_neg hlen]
      rfl
  · rfl

/-- Claim C7, witness: a set-shaped leading element with matching arity is
rejected. -/
theorem get_rejects_wrong_name_witness :
    (getTryFrom (RespFrame.BulkString [115, 101, 116] ::
      [RespFrame.BulkString [107, 101, 121]])).isOk = false :=
  get_rejects_wrong_name.1 [115, 101, 116] [RespFrame.BulkString [107, 101, 121]] (by decide)

/-- Claim C8: for every UTF-8-valid key k and arbitrary frame v,
Set::try_from on [BulkString "set", BulkString k, v] returns Ok with the
value field exactly the frame v, whatever its variant; HSet::try_from
likewise preserves its fourth element as the value frame. -/
theorem set_hset_preserve_value :
    (∀ (k : List Nat) (v : RespFrame), utf8Valid k = true →
      setTryFrom [RespFrame.BulkString [115, 101, 116], RespFrame.BulkString k, v] =
        Except.ok ⟨k, v⟩) ∧
    (∀ (k fl : List Nat) (v : RespFrame), utf8Valid k = true → utf8Valid fl = true →
      hsetTryFrom [RespFrame.BulkString [104, 115, 101, 116], RespFrame.BulkString k,
        RespFrame.BulkString fl, v] = Except.ok ⟨k, fl, v⟩) := by
  constructor
  · intro k v hk
    simp [setTryFrom, validateCommand, validateNames, extractArgs, stringFromUtf8, hk]
  · intro k fl v hk hf
    simp [hsetTryFrom, validateCommand, validateNames, extractArgs, stringFromUtf8, hk, hf]

/-- Claim C8, witness: a Set with key "key" and an Integer value, and an HSet
with key "key", field "field" and a Boolean value, both preserve the value
frame unchanged. -/
theorem set_hset_preserve_value_witness :
    setTryFrom [RespFrame.BulkString [115, 101, 116], RespFrame.BulkString [107, 101, 121],
        RespFrame.Integer 7] = Except.ok ⟨[107, 101, 121], RespFrame.Integer 7⟩ ∧
    hsetTryFrom [RespFrame.BulkString [104, 115, 101, 116],
        RespFrame.BulkString [107, 101, 121],
        RespFrame.BulkString [102, 105, 101, 108, 100], RespFrame.Boolean false] =
      Except.ok ⟨[107, 101, 121], [102, 105, 101, 108, 100], RespFrame.Boolean false⟩ :=
  ⟨set_hset_preserve_value.1 [107, 101, 121] (RespFrame.Integer 7) (by decide),
    set_hset_preserve_value.2 [107, 101, 121] [102, 105, 101, 108, 100]
      (RespFrame.Boolean false) (by decide) (by decide)⟩

/-- Claim C9: SimpleString::new (and the From conversion that delegates to
it) stores exactly the given string with no validation of the no-CR/LF wire
constraint, so the frame SimpleString "x\x0D\x0Ay" is constructible through
the public interface, and its encoding does not decode back to it. -/
theorem simplestring_new_unvalidated :
    (∀ s : List Nat, (SimpleString.new s).val = s ∧
      (SimpleString.fromStr s).toFrame = RespFrame.SimpleString s) ∧
    decode (encode ((SimpleString.new [120, 13, 10, 121]).toFrame)) ≠
      (Except.ok ((SimpleString.new [120, 13, 10, 121]).toFrame), ([] : List Nat)) := by
  constructor
  · intro s
    exact ⟨rfl, rfl⟩
  · intro hcl
    have hev : decode (encode ((SimpleString.new [120, 13, 10, 121]).toFrame)) =
        (Except.ok (RespFrame.SimpleString [120]), [121, 13, 10]) := rfl
    rw [hev] at hcl
    simp [SimpleString.new, SimpleString.toFrame] at hcl

/-- Claim C10: the derived PartialEq on RespFrame is not reflexive: with
f = Double(NaN), rustFrameEq f f is false; no frame at all — hence no
decode result — compares equal to Double(NaN), so decode(encode(f)) == Ok(f)
is unsatisfiable under Rust equality even though the decoder faithfully
returns a NaN Double. -/
theorem double_nan_eq_irreflexive :
    rustFrameEq (RespFrame.Double F64.NaN) (RespFrame.Double F64.NaN) = false ∧
    (∀ g : RespFrame, rustFrameEq g (RespFrame.Double F64.NaN) = false) ∧
    rustResultEq (decode (encode (RespFrame.Double F64.NaN))).1
      (Except.ok (RespFrame.Double F64.NaN)) = false := by
  refine ⟨rfl, ?_, rfl⟩
  intro g
  cases g
  case Double d => cases d <;> rfl
  all_goals rfl

end SimpleRedis
